import Mathlib

/-!
Shallow embedding of the battery-monitor firmware (src/src/main.cpp).

Strings are modelled as `List Char`; Arduino `float`/`double` arithmetic is
modelled exactly over `ℚ`; C integer casts truncate toward zero (`Int.tdiv`);
the external collaborators (ADC sampling, the TimeLib `breakTime` calendar
conversion) are passed in as function parameters.
-/

/-- Number of monitored channels (`const int NUM_BATTERIES = 10`). -/
def NUM_BATTERIES : Nat := 10

/-- Analog pin table (`ANALOG_PINS`): pins A0..A15 of the Mega target. -/
def ANALOG_PINS (i : Nat) : Nat := 54 + i

/-- Decimal digits of a natural number, as the Arduino `Print` class renders
an integer (most significant first). Structural fuel keeps it kernel-reducible;
`natDigits` always supplies enough fuel. -/
def natDigitsAux (fuel : Nat) (n : Nat) : List Char :=
  match fuel with
  | 0 => []
  | f + 1 =>
    if n < 10 then [Nat.digitChar n]
    else natDigitsAux f (n / 10) ++ [Nat.digitChar (n % 10)]

/-- Decimal rendering of a natural number. -/
def natDigits (n : Nat) : List Char := natDigitsAux (n + 1) n

/-- C cast of a floating value to an integer: truncation toward zero.
On a rational in lowest terms this is exactly `num tdiv den`. -/
def truncQ (q : ℚ) : ℤ := q.num.tdiv q.den

/-- `const float ARDUINO_REF_VOLTAGE = 5.0`. -/
def ARDUINO_REF_VOLTAGE : ℚ := 5

/-- `const float BATTERY_VOLTAGE_MAX = 12.0`. -/
def BATTERY_VOLTAGE_MAX : ℚ := 12

/-- `float scaledVoltage = (rawValue * ARDUINO_REF_VOLTAGE) / 1023.0` in
`readBatteries`. -/
def scaledVoltage (raw : Nat) : ℚ := ((raw : ℚ) * ARDUINO_REF_VOLTAGE) / 1023

/-- `voltage = scaledVoltage * (BATTERY_VOLTAGE_MAX / ARDUINO_REF_VOLTAGE)`. -/
def batteryVoltage (raw : Nat) : ℚ :=
  scaledVoltage raw * (BATTERY_VOLTAGE_MAX / ARDUINO_REF_VOLTAGE)

/-- `float minVoltage = BATTERY_VOLTAGE_MAX * 0.83`. -/
def minVoltage : ℚ := BATTERY_VOLTAGE_MAX * (83 / 100)

/-- `float maxVoltage = BATTERY_VOLTAGE_MAX * 1.05`. -/
def maxVoltage : ℚ := BATTERY_VOLTAGE_MAX * (105 / 100)

/-- Arduino `map(x, in_min, in_max, out_min, out_max)`: long arithmetic with
C division (truncation toward zero). -/
def arduinoMap (x inMin inMax outMin outMax : ℤ) : ℤ :=
  Int.tdiv ((x - inMin) * (outMax - outMin)) (inMax - inMin) + outMin

/-- Arduino `constrain(amt, low, high)`. -/
def arduinoConstrain (amt low high : ℤ) : ℤ :=
  if amt < low then low else if high < amt then high else amt

/-- The percentage computed in `readBatteries`:
`constrain(map(voltage * 100, minVoltage * 100, maxVoltage * 100, 0, 100), 0, 100)`.
The three `map` arguments are C casts of floats to `long`. -/
def percentageInt (raw : Nat) : ℤ :=
  arduinoConstrain
    (arduinoMap (truncQ (batteryVoltage raw * 100)) (truncQ (minVoltage * 100))
      (truncQ (maxVoltage * 100)) 0 100) 0 100

/-- The percentage as stored in the `float percentage` field. -/
def percentageQ (raw : Nat) : ℚ := (percentageInt raw : ℚ)

/-- The `Battery` struct. -/
structure Battery where
  analogPin : Nat
  rawValue : Nat
  voltage : ℚ
  percentage : ℚ
  isHealthy : Bool
  lastUpdate : Nat

/-- Channel initialisation in `setup` (lines 99-106): zero raw/voltage/
percentage/lastUpdate and `isHealthy = true`. -/
def initBattery (i : Nat) : Battery :=
  { analogPin := ANALOG_PINS i
    rawValue := 0
    voltage := 0
    percentage := 0
    isHealthy := true
    lastUpdate := 0 }

/-- The `batteries` array right after `setup`. -/
def initBatteries : List Battery := (List.range NUM_BATTERIES).map initBattery

/-- One iteration of the `readBatteries` loop; `sample` models `analogRead`
and `now` models `millis()`. -/
def readBattery (sample : Nat → Nat) (now : Nat) (b : Battery) : Battery :=
  let raw := sample b.analogPin
  { b with
    rawValue := raw
    voltage := batteryVoltage raw
    percentage := percentageQ raw
    isHealthy := decide (percentageQ raw > 20)
    lastUpdate := now }

/-- `readBatteries`: refresh every channel in place. -/
def readBatteries (sample : Nat → Nat) (now : Nat) (bats : List Battery) :
    List Battery :=
  bats.map (readBattery sample now)

/-- Status-LED state: the `ledState` and `lastLedUpdate` globals plus the two
output pins. -/
structure LedState where
  ledState : Bool
  lastLedUpdate : Nat
  red : Bool
  green : Bool

/-- The `anyUnhealthy` scan at the top of `updateStatusLEDs`. -/
def anyUnhealthy (bats : List Battery) : Bool := bats.any fun b => ! b.isHealthy

/-- Unsigned 32-bit `currentTime - lastLedUpdate` (AVR `unsigned long`). -/
def elapsedMs (now last : Nat) : Nat := (now + 2 ^ 32 - last) % 2 ^ 32

/-- `updateStatusLEDs(currentTime)`. -/
def updateStatusLEDs (bats : List Battery) (now : Nat) (s : LedState) :
    LedState :=
  if anyUnhealthy bats then
    if 500 ≤ elapsedMs now s.lastLedUpdate then
      let led := ! s.ledState
      { ledState := led, lastLedUpdate := now, red := led, green := false }
    else s
  else { s with red := false, green := true }

/-- TimeLib `tmElements_t` (the fields the sketch reads). -/
structure tmElements where
  Year : Nat
  Month : Nat
  Day : Nat
  Hour : Nat
  Minute : Nat
  Second : Nat

/-- TimeLib `tmYearToCalendar`: years are stored as offset from 1970. -/
def tmYearToCalendar (y : Nat) : Nat := y + 1970

/-- `sprintf %02d`: zero-pad to width 2 (wider numbers print in full). -/
def pad2 (n : Nat) : List Char :=
  List.replicate (2 - (natDigits n).length) '0' ++ natDigits n

/-- `sprintf %04d`: zero-pad to width 4. -/
def pad4 (n : Nat) : List Char :=
  List.replicate (4 - (natDigits n).length) '0' ++ natDigits n

/-- The NTP client state the sketch reads: `isTimeSet()` and
`getEpochTime()`. -/
structure TimeState where
  synced : Bool
  epoch : Nat

/-- `const long TIMEZONE_OFFSET = -4 * 3600`. -/
def TIMEZONE_OFFSET : Int := -4 * 3600

/-- `unsigned long local = timeClient.getEpochTime() + TIMEZONE_OFFSET`:
32-bit unsigned wraparound addition of the negative offset. -/
def localEpoch (e : Nat) : Nat := (e + 2 ^ 32 - 14400) % 2 ^ 32

/-- `getUTCTimeString` (`bt` models the external TimeLib `breakTime`). -/
def getUTCTimeString (bt : Nat → tmElements) (st : TimeState) : List Char :=
  if st.synced then
    let tm := bt st.epoch
    pad4 (tmYearToCalendar tm.Year) ++ '-' :: pad2 tm.Month ++ '-' :: pad2 tm.Day
      ++ ' ' :: pad2 tm.Hour ++ ':' :: pad2 tm.Minute ++ ':' :: pad2 tm.Second
      ++ " UTC".toList
  else "Time not synced".toList

/-- `getLocalTimeString`. -/
def getLocalTimeString (bt : Nat → tmElements) (st : TimeState) : List Char :=
  if st.synced then
    let tm := bt (localEpoch st.epoch)
    pad4 (tmYearToCalendar tm.Year) ++ '-' :: pad2 tm.Month ++ '-' :: pad2 tm.Day
      ++ ' ' :: pad2 tm.Hour ++ ':' :: pad2 tm.Minute ++ ':' :: pad2 tm.Second
  else "Time not synced".toList

/-- `getUSLocalTimeString`: 12-hour conversion with midnight/noon special
cases, format `MM/DD/YYYY H:MM:SS AM|PM`. -/
def getUSLocalTimeString (bt : Nat → tmElements) (st : TimeState) : List Char :=
  if st.synced then
    let tm := bt (localEpoch st.epoch)
    let hour12 : Nat :=
      if tm.Hour = 0 then 12 else if tm.Hour > 12 then tm.Hour - 12 else tm.Hour
    let ampm : List Char :=
      if tm.Hour = 0 then "AM".toList
      else if tm.Hour > 12 then "PM".toList
      else if tm.Hour = 12 then "PM".toList
      else "AM".toList
    pad2 tm.Month ++ '/' :: pad2 tm.Day ++ '/' :: pad4 (tmYearToCalendar tm.Year)
      ++ ' ' :: natDigits hour12 ++ ':' :: pad2 tm.Minute ++ ':' :: pad2 tm.Second
      ++ ' ' :: ampm
  else "Time not synced".toList

/-- `getDateTimeForCSV`: ISO `YYYY-MM-DDTHH:MM:SSZ`, epoch sentinel when the
time source is not synced. -/
def getDateTimeForCSV (bt : Nat → tmElements) (st : TimeState) : List Char :=
  if st.synced then
    let tm := bt st.epoch
    pad4 (tmYearToCalendar tm.Year) ++ '-' :: pad2 tm.Month ++ '-' :: pad2 tm.Day
      ++ 'T' :: pad2 tm.Hour ++ ':' :: pad2 tm.Minute ++ ':' :: pad2 tm.Second
      ++ ['Z']
  else "1970-01-01T00:00:00Z".toList

/-- Fractional-digit loop of Arduino `Print::printFloat`: repeatedly multiply
the remainder by ten and print the integer part. -/
def fracDigits (rem : ℚ) : Nat → List Char
  | 0 => []
  | d + 1 =>
    let r10 := rem * 10
    let tp := (truncQ r10).toNat
    natDigits tp ++ fracDigits (r10 - (tp : ℚ)) d

/-- Arduino `Print::printFloat(number, digits)`: optional sign, add
`0.5 * 10^-digits`, print integer part, then `digits` fractional digits. -/
def fmtFixed (q : ℚ) (digits : Nat) : List Char :=
  let sign : List Char := if q < 0 then ['-'] else []
  let n : ℚ := if q < 0 then -q else q
  let r : ℚ := n + 1 / (2 * 10 ^ digits)
  let ip : Nat := (truncQ r).toNat
  sign ++ natDigits ip ++ (if 0 < digits then '.' :: fracDigits (r - (ip : ℚ)) digits else [])

/-- Per-battery CSV cell group written by `logBatteryData`: raw, voltage to
3 decimals, percentage to 1 decimal. -/
def batteryTriple (b : Battery) : List Char × List Char × List Char :=
  (natDigits b.rawValue, fmtFixed b.voltage 3, fmtFixed b.percentage 1)

/-- The battery portion of a log line, with the `if (i < NUM_BATTERIES - 1)`
comma between channels. -/
def batteryCSV : List Battery → List Char
  | [] => []
  | [b] =>
    natDigits b.rawValue ++ ',' :: fmtFixed b.voltage 3
      ++ ',' :: fmtFixed b.percentage 1
  | b :: rest =>
    natDigits b.rawValue ++ ',' :: fmtFixed b.voltage 3
      ++ ',' :: fmtFixed b.percentage 1 ++ ',' :: batteryCSV rest

/-- The CSV data line appended by `logBatteryData` (without the terminating
`println`): timestamp, then the per-channel triples. -/
def dataLine (bt : Nat → tmElements) (st : TimeState) (bats : List Battery) :
    List Char :=
  getDateTimeForCSV bt st ++ ',' :: batteryCSV bats

/-- One column group of the header written by `setup`. -/
def headerPart (i : Nat) : List Char :=
  "Battery".toList ++ natDigits (i + 1) ++ "_Raw,Battery".toList
    ++ natDigits (i + 1) ++ "_Voltage,Battery".toList ++ natDigits (i + 1)
    ++ "_Percentage".toList

/-- The header loop of `setup`: `count` remaining channels starting at
index `i`; a comma separates groups (`if (i < NUM_BATTERIES - 1)`). -/
def headerLineAux : Nat → Nat → List Char
  | 0, _ => []
  | 1, i => headerPart i
  | c + 2, i => headerPart i ++ ',' :: headerLineAux (c + 1) (i + 1)

/-- The fixed header line of `battery.csv`. -/
def headerLine : List Char := "DateTime_UTC,".toList ++ headerLineAux NUM_BATTERIES 0

/-- A fresh log file: `setup` writes the header when the file is absent. -/
def initLog : List (List Char) := [headerLine]

/-- `logBatteryData` appends one line to the file. -/
def appendLog (file : List (List Char)) (line : List Char) : List (List Char) :=
  file ++ [line]

/-- Index of the first comma (`String::indexOf(',')`, `none` for -1). -/
def findComma : List Char → Option Nat
  | [] => none
  | c :: rest => if c = ',' then some 0 else (findComma rest).map (· + 1)

/-- `String::indexOf(',', fromIndex)`: scan from an offset, absolute result. -/
def indexOfFrom (s : List Char) (start : Nat) : Option Nat :=
  (findComma (s.drop start)).map (· + start)

/-- Arduino `String::substring(left, right)`: swaps a reversed range, clamps
`right` to the length, returns the chars in `[left, right)`. -/
def substrA (s : List Char) (left right : Nat) : List Char :=
  let l := if right < left then right else left
  let r := if right < left then left else right
  if s.length ≤ l then [] else (s.take (min r s.length)).drop l

/-- The raw-value / voltage field read in `sendHistoryData`: take the field up
to the next comma; when there is none (`indexOf` = -1) the substring call
clamps to the end of the string and `startIndex = -1 + 1 = 0`. -/
def fieldStep (data : List Char) (si : Nat) : List Char × Nat :=
  match indexOfFrom data si with
  | some n => (substrA data si n, n + 1)
  | none => (substrA data si data.length, 0)

/-- The percentage field read in `sendHistoryData`: a missing trailing comma
is replaced by the end of the string (`if (nextComma == -1) nextComma =
data.length()`). -/
def lastFieldStep (data : List Char) (si : Nat) : List Char × Nat :=
  let n := (indexOfFrom data si).getD data.length
  (substrA data si n, n + 1)

/-- The `while (startIndex < data.length() && batteryIndex < NUM_BATTERIES)`
loop of `sendHistoryData`; `fuel` is the number of channels still allowed
(`NUM_BATTERIES - batteryIndex`). -/
def parseGroups (data : List Char) : Nat → Nat → List (List Char × List Char × List Char)
  | _, 0 => []
  | si, fuel + 1 =>
    if si < data.length then
      let r1 := fieldStep data si
      let r2 := fieldStep data r1.2
      let r3 := lastFieldStep data r2.2
      (r1.1, r2.1, r3.1) :: parseGroups data r3.2 fuel
    else []

/-- Per-line replay in `sendHistoryData`: split the timestamp at the first
comma (an absent comma clamps to the whole line), then parse battery groups. -/
def parseLine (line : List Char) :
    List Char × List (List Char × List Char × List Char) :=
  match findComma line with
  | some ci => (substrA line 0 ci, parseGroups (line.drop (ci + 1)) 0 NUM_BATTERIES)
  | none => (substrA line 0 line.length, parseGroups line 0 NUM_BATTERIES)

/-- Arduino `isspace` set used by `String::trim`. -/
def isSpaceA (c : Char) : Bool :=
  c = ' ' || c = '\t' || c = '\n' || c = Char.ofNat 11 || c = Char.ofNat 12 || c = '\r'

/-- `String::trim()`. -/
def trimA (l : List Char) : List Char :=
  ((l.dropWhile isSpaceA).reverse.dropWhile isSpaceA).reverse

/-- One line of the `sendHistoryData` scan: trim, skip empty lines, else
replay the line. -/
def processLine (l : List Char) :
    Option (List Char × List (List Char × List Char × List Char)) :=
  let t := trimA l
  if 0 < t.length then some (parseLine t) else none

/-- The whole `sendHistoryData` scan over the file: skip the header line,
replay every nonempty remaining line. -/
def replayHistory (lines : List (List Char)) :
    List (List Char × List (List Char × List Char × List Char)) :=
  match lines with
  | [] => []
  | _ :: rest => rest.filterMap processLine

/-- Splitting a line on commas (the field structure named by the spec). -/
def splitComma : List Char → List (List Char)
  | [] => [[]]
  | c :: rest =>
    if c = ',' then [] :: splitComma rest
    else
      match splitComma rest with
      | [] => [[c]]
      | f :: fs => (c :: f) :: fs

/-- Joining fields with commas (inverse of `splitComma` on comma-free
fields). -/
def joinComma : List (List Char) → List Char
  | [] => []
  | [f] => f
  | f :: fs => f ++ ',' :: joinComma fs

/-- Flatten a list of field triples. -/
def flat3 : List (List Char × List Char × List Char) → List (List Char)
  | [] => []
  | (a, b, c) :: t => a :: b :: c :: flat3 t

/-- Group a field list into complete consecutive triples, dropping a ragged
tail. -/
def groupTriples : List (List Char) → List (List Char × List Char × List Char)
  | a :: b :: c :: t => (a, b, c) :: groupTriples t
  | _ => []

/-- The comma-separated fields of the data portion of a line (after the
timestamp). -/
def dataFields (line : List Char) : List (List Char) :=
  match findComma line with
  | some ci => splitComma (line.drop (ci + 1))
  | none => splitComma line

/-- The spec reading of graceful replay of one line: the emitted groups are
exactly the complete triples of a prefix of the line's own fields (the empty
prefix meaning the line was skipped). -/
def parsedGracefully (line : List Char) : Prop :=
  ∃ k, (parseLine line).2 = groupTriples ((dataFields line).take k)

/-- The four response shapes of the web server. -/
inductive HttpResponse where
  | dashboard
  | currentData
  | historyData
  | notFound
deriving DecidableEq

/-- `startsWith`: does `s` begin with `pat`? -/
def startsWithA : List Char → List Char → Bool
  | _, [] => true
  | [], _ :: _ => false
  | c :: s, d :: p => c = d && startsWithA s p

/-- Arduino `String::indexOf(substring) >= 0`: substring containment. -/
def containsSub (s pat : List Char) : Bool :=
  startsWithA s pat ||
    match s with
    | [] => false
    | _ :: t => containsSub t pat

/-- The request dispatch of `handleWebRequests` (lines 381-393): three
`indexOf` containment tests on the raw request text, else 404. -/
def handleWebRequest (request : List Char) : HttpResponse :=
  if containsSub request "GET / ".toList then .dashboard
  else if containsSub request "GET /api/current".toList then .currentData
  else if containsSub request "GET /api/history".toList then .historyData
  else .notFound

/-- A canonical single-request text for a method/path pair, as a client would
send it: request line, one header, blank line. -/
def mkRequest (method path : List Char) : List Char :=
  method ++ ' ' :: path ++ " HTTP/1.1\r\nHost: battery-monitor\r\n\r\n".toList

/-- Character class of everything the firmware writes into a CSV cell:
digits plus the fixed punctuation of the number and timestamp formats. -/
def safeChar (c : Char) : Prop :=
  c.isDigit = true ∨ c = '-' ∨ c = 'T' ∨ c = ':' ∨ c = 'Z' ∨ c = '.'

/-! Helper lemmas: character classes of rendered text. -/

theorem safeChar_digitChar {n : Nat} (h : n < 10) : safeChar (Nat.digitChar n) := by
  interval_cases n <;> exact Or.inl (by decide)

theorem safeChar_natDigitsAux (fuel : Nat) :
    ∀ n, ∀ c ∈ natDigitsAux fuel n, safeChar c := by
  induction fuel with
  | zero => intro n c hc; simp [natDigitsAux] at hc
  | succ f ih =>
    intro n c hc
    simp only [natDigitsAux] at hc
    by_cases h10 : n < 10
    · rw [if_pos h10] at hc
      simp only [List.mem_singleton] at hc
      subst hc; exact safeChar_digitChar h10
    · rw [if_neg h10] at hc
      rcases List.mem_append.mp hc with h | h
      · exact ih _ c h
      · simp only [List.mem_singleton] at h
        subst h; exact safeChar_digitChar (Nat.mod_lt _ (by omega))

theorem safeChar_natDigits (n : Nat) : ∀ c ∈ natDigits n, safeChar c :=
  safeChar_natDigitsAux (n + 1) n

theorem safeChar_pad2 (n : Nat) : ∀ c ∈ pad2 n, safeChar c := by
  intro c hc
  rcases List.mem_append.mp hc with h | h
  · rw [List.eq_of_mem_replicate h]; exact Or.inl (by decide)
  · exact safeChar_natDigits n c h

theorem safeChar_pad4 (n : Nat) : ∀ c ∈ pad4 n, safeChar c := by
  intro c hc
  rcases List.mem_append.mp hc with h | h
  · rw [List.eq_of_mem_replicate h]; exact Or.inl (by decide)
  · exact safeChar_natDigits n c h

theorem safeChar_excludes {c : Char} (h : safeChar c) :
    c ≠ ',' ∧ c ≠ '\n' ∧ c ≠ '\r' := by
  rcases h with h | h | h | h | h | h
  · refine ⟨?_, ?_, ?_⟩ <;> rintro rfl <;> exact absurd h (by decide)
  all_goals subst h; exact ⟨by decide, by decide, by decide⟩

theorem safeChar_csv (bt : Nat → tmElements) (st : TimeState) :
    ∀ c ∈ getDateTimeForCSV bt st, safeChar c := by
  intro c hc
  unfold getDateTimeForCSV at hc
  by_cases hs : st.synced
  · rw [if_pos hs] at hc
    simp only [List.mem_append, List.mem_cons, List.not_mem_nil, or_false,
      or_assoc] at hc
    rcases hc with h | rfl | h | rfl | h | rfl | h | rfl | h | rfl | h | rfl <;>
      first
        | exact safeChar_pad4 _ c h
        | exact safeChar_pad2 _ c h
        | exact Or.inr (Or.inl rfl)
        | exact Or.inr (Or.inr (Or.inl rfl))
        | exact Or.inr (Or.inr (Or.inr (Or.inl rfl)))
        | exact Or.inr (Or.inr (Or.inr (Or.inr (Or.inl rfl))))
  · rw [if_neg hs] at hc
    fin_cases hc <;> first
      | exact Or.inl (by decide)
      | exact Or.inr (Or.inl rfl)
      | exact Or.inr (Or.inr (Or.inl rfl))
      | exact Or.inr (Or.inr (Or.inr (Or.inl rfl)))
      | exact Or.inr (Or.inr (Or.inr (Or.inr (Or.inl rfl))))

/-! Helper lemmas: the C casts. -/

theorem truncQ_eq_floor {q : ℚ} (h : 0 ≤ q) : truncQ q = ⌊q⌋ := by
  unfold truncQ
  rw [Int.tdiv_eq_ediv (Rat.num_nonneg.mpr h) (by positivity)]
  rw [Rat.floor_def]

theorem truncQ_intCast (z : ℤ) : truncQ (z : ℚ) = z := by
  simp [truncQ, Rat.num_intCast, Rat.den_intCast, Int.tdiv_one]

theorem arduinoConstrain_bounds (m : ℤ) :
    0 ≤ arduinoConstrain m 0 100 ∧ arduinoConstrain m 0 100 ≤ 100 := by
  unfold arduinoConstrain; split_ifs <;> omega

/-- C6 counterexample: before sync the formatters return the literal
"Time not synced" (capital T), not the spec's literal "time not synced";
the CSV formatter returns the epoch sentinel. -/
theorem timeStrings_unsynced_capital :
    getUTCTimeString (fun _ => ⟨0, 0, 0, 0, 0, 0⟩) ⟨false, 0⟩ =
      "Time not synced".toList ∧
    getUTCTimeString (fun _ => ⟨0, 0, 0, 0, 0, 0⟩) ⟨false, 0⟩ ≠
      "time not synced".toList ∧
    getLocalTimeString (fun _ => ⟨0, 0, 0, 0, 0, 0⟩) ⟨false, 0⟩ ≠
      "time not synced".toList ∧
    getUSLocalTimeString (fun _ => ⟨0, 0, 0, 0, 0, 0⟩) ⟨false, 0⟩ ≠
      "time not synced".toList := by
  refine ⟨rfl, ?_, ?_, ?_⟩ <;> decide

/-- C6 (amended): when the time source is not synchronized, the UTC, LOCAL
and US_LOCAL formatters all return the literal "Time not synced", and the
CSV_ISO formatter returns the epoch sentinel "1970-01-01T00:00:00Z". -/
theorem timeStrings_unsynced (bt : Nat → tmElements) (st : TimeState)
    (h : st.synced = false) :
    getUTCTimeString bt st = "Time not synced".toList ∧
    getLocalTimeString bt st = "Time not synced".toList ∧
    getUSLocalTimeString bt st = "Time not synced".toList ∧
    getDateTimeForCSV bt st = "1970-01-01T00:00:00Z".toList := by
  unfold getUTCTimeString getLocalTimeString getUSLocalTimeString
    getDateTimeForCSV
  rw [h]
  exact ⟨rfl, rfl, rfl, rfl⟩

/-- C6 witness: the amended theorem applied at a concrete unsynced state. -/
theorem timeStrings_unsynced_witness :
    getUTCTimeString (fun _ => ⟨54, 3, 15, 13, 5, 9⟩) ⟨false, 7⟩ =
      "Time not synced".toList ∧
    getLocalTimeString (fun _ => ⟨54, 3, 15, 13, 5, 9⟩) ⟨false, 7⟩ =
      "Time not synced".toList ∧
    getUSLocalTimeString (fun _ => ⟨54, 3, 15, 13, 5, 9⟩) ⟨false, 7⟩ =
      "Time not synced".toList ∧
    getDateTimeForCSV (fun _ => ⟨54, 3, 15, 13, 5, 9⟩) ⟨false, 7⟩ =
      "1970-01-01T00:00:00Z".toList :=
  timeStrings_unsynced (fun _ => ⟨54, 3, 15, 13, 5, 9⟩) ⟨false, 7⟩ rfl

/-- C7: after a refresh, every channel's healthy flag equals the test
`percentage > 20` on its freshly stored percentage. -/
theorem healthy_iff_percentage (sample : Nat → Nat) (now : Nat)
    (bats : List Battery) (b : Battery)
    (hb : b ∈ readBatteries sample now bats) :
    b.isHealthy = decide (b.percentage > 20) := by
  simp only [readBatteries, List.mem_map] at hb
  obtain ⟨a, -, rfl⟩ := hb
  rfl

/-- C7 witness: the invariant at a concrete refreshed channel. -/
theorem healthy_iff_percentage_witness :
    (readBattery (fun _ => 512) 5 (initBattery 0)).isHealthy =
      decide ((readBattery (fun _ => 512) 5 (initBattery 0)).percentage > 20) :=
  healthy_iff_percentage (fun _ => 512) 5 initBatteries _
    (List.mem_map_of_mem _
      (List.mem_map_of_mem _ (List.mem_range.mpr (by decide))))

/-- C8: with any channel unhealthy, the red LED toggles exactly when 500 ms
have elapsed since the last toggle and holds otherwise (so the cadence is a
fixed 500 ms); with all channels healthy the LEDs are solid green and the
toggle phase (`ledState`, `lastLedUpdate`) is left untouched, so re-entering
the degraded state never resets the phase; the branch is chosen from the
level of `anyUnhealthy` at each call. -/
theorem updateStatusLEDs_spec (bats : List Battery) (now : Nat)
    (s : LedState) :
    (anyUnhealthy bats = true →
      (500 ≤ elapsedMs now s.lastLedUpdate →
        updateStatusLEDs bats now s =
          { ledState := !s.ledState, lastLedUpdate := now,
            red := !s.ledState, green := false }) ∧
      (elapsedMs now s.lastLedUpdate < 500 →
        updateStatusLEDs bats now s = s)) ∧
    (anyUnhealthy bats = false →
      updateStatusLEDs bats now s = { s with red := false, green := true } ∧
      (updateStatusLEDs bats now s).ledState = s.ledState ∧
      (updateStatusLEDs bats now s).lastLedUpdate = s.lastLedUpdate) := by
  unfold updateStatusLEDs
  constructor
  · intro hu
    rw [hu]
    constructor
    · intro h5; rw [if_pos rfl, if_pos h5]
    · intro h5; rw [if_pos rfl, if_neg (by omega)]
  · intro hu
    rw [hu]
    exact ⟨rfl, rfl, rfl⟩

/-- C8 witness: a degraded registry at the 500 ms boundary toggles, and a
healthy registry is solid green. -/
theorem updateStatusLEDs_spec_witness :
    updateStatusLEDs [⟨54, 0, 0, 0, false, 0⟩] 700 ⟨false, 100, false, false⟩ =
      { ledState := true, lastLedUpdate := 700, red := true, green := false } ∧
    updateStatusLEDs [] 700 ⟨false, 100, false, false⟩ =
      ⟨false, 100, false, true⟩ :=
  ⟨((updateStatusLEDs_spec [⟨54, 0, 0, 0, false, 0⟩] 700
      ⟨false, 100, false, false⟩).1 rfl).1 (by decide),
   ((updateStatusLEDs_spec [] 700 ⟨false, 100, false, false⟩).2 rfl).1⟩

/-- C9 counterexample: the channels are not created all-zero: `setup` sets
`isHealthy = true` on every channel. -/
theorem initBatteries_not_all_zero :
    ¬ (∀ b ∈ initBatteries, b.rawValue = 0 ∧ b.voltage = 0 ∧
        b.percentage = 0 ∧ b.isHealthy = false ∧ b.lastUpdate = 0) := by
  intro h
  have h0 : initBattery 0 ∈ initBatteries :=
    List.mem_map_of_mem _ (List.mem_range.mpr (by decide))
  have := (h _ h0).2.2.2.1
  simp [initBattery] at this

/-- C9 (amended): at startup every one of the N channels is created with
zero raw sample, voltage, percentage and last-update time, but with the
health flag initialised to `true`. -/
theorem initBatteries_spec :
    initBatteries.length = NUM_BATTERIES ∧
    ∀ b ∈ initBatteries,
      b.rawValue = 0 ∧ b.voltage = 0 ∧ b.percentage = 0 ∧ b.lastUpdate = 0 ∧
      b.isHealthy = true := by
  constructor
  · simp [initBatteries]
  · intro b hb
    simp only [initBatteries, List.mem_map] at hb
    obtain ⟨i, -, rfl⟩ := hb
    exact ⟨rfl, rfl, rfl, rfl, rfl⟩

/-- C9 witness: the amended description holds of the first channel. -/
theorem initBatteries_spec_witness :
    (initBattery 0).rawValue = 0 ∧ (initBattery 0).voltage = 0 ∧
    (initBattery 0).percentage = 0 ∧ (initBattery 0).lastUpdate = 0 ∧
    (initBattery 0).isHealthy = true :=
  initBatteries_spec.2 (initBattery 0)
    (List.mem_map_of_mem _ (List.mem_range.mpr (by decide)))

/-- C3 counterexample: `GET /api/currentX` is a method/path combination other
than the three listed routes, yet the responder returns the current-snapshot
JSON rather than the 404 response, because dispatch is substring containment
on the raw request text. -/
theorem handleWebRequest_not_exact :
    handleWebRequest (mkRequest "GET".toList "/api/currentX".toList) =
      HttpResponse.currentData ∧
    "/api/currentX".toList ≠ "/api/current".toList ∧
    HttpResponse.currentData ≠ HttpResponse.notFound := by
  refine ⟨by decide, by decide, by decide⟩

/-- C3 (amended): the responder routes by substring containment on the raw
request text, in priority order "GET / ", "GET /api/current",
"GET /api/history", else 404; canonical exact requests hit their intended
routes, other methods and unknown paths hit 404, but any request merely
containing a route string (for example a GET for an extension of
/api/current) is also matched. -/
theorem handleWebRequest_routing :
    (∀ req : List Char,
      (handleWebRequest req = HttpResponse.dashboard ↔
        containsSub req "GET / ".toList = true) ∧
      (handleWebRequest req = HttpResponse.currentData ↔
        (containsSub req "GET / ".toList = false ∧
         containsSub req "GET /api/current".toList = true)) ∧
      (handleWebRequest req = HttpResponse.historyData ↔
        (containsSub req "GET / ".toList = false ∧
         containsSub req "GET /api/current".toList = false ∧
         containsSub req "GET /api/history".toList = true)) ∧
      (handleWebRequest req = HttpResponse.notFound ↔
        (containsSub req "GET / ".toList = false ∧
         containsSub req "GET /api/current".toList = false ∧
         containsSub req "GET /api/history".toList = false))) ∧
    handleWebRequest (mkRequest "GET".toList "/".toList) =
      HttpResponse.dashboard ∧
    handleWebRequest (mkRequest "GET".toList "/api/current".toList) =
      HttpResponse.currentData ∧
    handleWebRequest (mkRequest "GET".toList "/api/history".toList) =
      HttpResponse.historyData ∧
    handleWebRequest (mkRequest "GET".toList "/api/current?x=1".toList) =
      HttpResponse.currentData ∧
    handleWebRequest (mkRequest "POST".toList "/".toList) =
      HttpResponse.notFound ∧
    handleWebRequest (mkRequest "PUT".toList "/api/history".toList) =
      HttpResponse.notFound ∧
    handleWebRequest (mkRequest "GET".toList "/unknown".toList) =
      HttpResponse.notFound := by
  constructor
  · intro req
    unfold handleWebRequest
    cases h1 : containsSub req "GET / ".toList <;>
      cases h2 : containsSub req "GET /api/current".toList <;>
        cases h3 : containsSub req "GET /api/history".toList <;>
          simp
  · refine ⟨by decide, by decide, by decide, by decide, by decide, by decide,
      by decide⟩

/-! Helper lemmas for the fixed-point rendering of integral values. -/

theorem floor_small_pos {q : ℚ} (h0 : 0 ≤ q) (h1 : q < 1) : ⌊q⌋ = 0 := by
  rw [Int.floor_eq_zero_iff]
  exact Set.mem_Ico.mpr ⟨h0, h1⟩

theorem fmtFixed_int_one (z : ℤ) (hz : 0 ≤ z) :
    fmtFixed (z : ℚ) 1 = natDigits z.toNat ++ ['.', '0'] := by
  have hzq : (0 : ℚ) ≤ (z : ℚ) := by exact_mod_cast hz
  have hlt : ¬ ((z : ℚ) < 0) := not_lt.mpr hzq
  have hr : (z : ℚ) + 1 / (2 * 10 ^ 1) = (z : ℚ) + 1 / 20 := by norm_num
  have htr : truncQ ((z : ℚ) + 1 / 20) = z := by
    rw [truncQ_eq_floor (by linarith), Int.floor_int_add,
      floor_small_pos (by norm_num) (by norm_num)]
    omega
  have hcast : ((z.toNat : ℕ) : ℚ) = (z : ℚ) := by
    exact_mod_cast Int.toNat_of_nonneg hz
  have harg : (z : ℚ) + 1 / 20 - (z : ℚ) = 1 / 20 := by ring
  have h12 : (1 / 20 : ℚ) * 10 = 1 / 2 := by norm_num
  have htr2 : truncQ (1 / 2 : ℚ) = 0 := by
    rw [truncQ_eq_floor (by norm_num)]
    exact floor_small_pos (by norm_num) (by norm_num)
  have hfrac : fracDigits (1 / 20 : ℚ) 1 = ['0'] := by
    simp only [fracDigits, h12, htr2, Int.toNat_zero]
    rfl
  simp only [fmtFixed, if_neg hlt, hr, htr, hcast, harg, hfrac,
    if_pos Nat.zero_lt_one]
  simp

/-- C10: the percentage produced by a refresh is always a whole number: it is
an integer range-map result, clamped to [0, 100], cast into the stored float,
and its 1-decimal serialization is always "n.0". -/
theorem percentage_whole (raw : Nat) :
    (percentageQ raw).den = 1 ∧
    percentageQ raw = ((percentageInt raw : ℤ) : ℚ) ∧
    0 ≤ percentageInt raw ∧ percentageInt raw ≤ 100 ∧
    fmtFixed (percentageQ raw) 1 =
      natDigits (percentageInt raw).toNat ++ ['.', '0'] := by
  refine ⟨Rat.den_intCast _, rfl, ?_, ?_, ?_⟩
  · exact (arduinoConstrain_bounds _).1
  · exact (arduinoConstrain_bounds _).2
  · exact fmtFixed_int_one _ (arduinoConstrain_bounds _).1

/-! Helper lemmas for the unit converter. -/

theorem batteryVoltage_eq (raw : Nat) :
    batteryVoltage raw = (raw : ℚ) * 12 / 1023 := by
  unfold batteryVoltage scaledVoltage ARDUINO_REF_VOLTAGE BATTERY_VOLTAGE_MAX
  ring

theorem truncQ_batteryVoltage (raw : Nat) :
    truncQ (batteryVoltage raw * 100) = ((raw * 1200 / 1023 : ℕ) : ℤ) := by
  have h1 : batteryVoltage raw * 100 = ((raw * 1200 : ℕ) : ℚ) / ((1023 : ℕ) : ℚ) := by
    unfold batteryVoltage scaledVoltage ARDUINO_REF_VOLTAGE BATTERY_VOLTAGE_MAX
    push_cast
    ring
  rw [h1, truncQ_eq_floor (by positivity),
    ← Int.natCast_floor_eq_floor (by positivity),
    Nat.floor_div_nat, Nat.floor_natCast]

theorem truncQ_minVoltage : truncQ (minVoltage * 100) = 996 := by
  have h : minVoltage * 100 = ((996 : ℤ) : ℚ) := by
    norm_num [minVoltage, BATTERY_VOLTAGE_MAX]
  rw [h, truncQ_intCast]

theorem truncQ_maxVoltage : truncQ (maxVoltage * 100) = 1260 := by
  have h : maxVoltage * 100 = ((1260 : ℤ) : ℚ) := by
    norm_num [maxVoltage, BATTERY_VOLTAGE_MAX]
  rw [h, truncQ_intCast]

theorem percentageInt_formula (raw : Nat) :
    percentageInt raw =
      arduinoConstrain
        (Int.tdiv ((((raw * 1200 / 1023 : ℕ) : ℤ) - 996) * 100) 264) 0 100 := by
  unfold percentageInt arduinoMap
  rw [truncQ_batteryVoltage, truncQ_minVoltage, truncQ_maxVoltage]
  norm_num

theorem tdiv_nonpos_of_nonpos {a b : ℤ} (ha : a ≤ 0) (hb : 0 ≤ b) :
    a.tdiv b ≤ 0 := by
  have h1 : 0 ≤ (-a).tdiv b := Int.tdiv_nonneg (by omega) hb
  rw [Int.neg_tdiv] at h1
  omega

theorem tdiv_mono_of_nonneg {a b c : ℤ} (ha : 0 ≤ a) (hab : a ≤ b)
    (hc : 0 < c) : a.tdiv c ≤ b.tdiv c := by
  rw [Int.tdiv_eq_ediv ha hc.le, Int.tdiv_eq_ediv (ha.trans hab) hc.le]
  exact Int.ediv_le_ediv hc hab

theorem arduinoConstrain_mono {m1 m2 : ℤ} (h : m1 ≤ m2) :
    arduinoConstrain m1 0 100 ≤ arduinoConstrain m2 0 100 := by
  unfold arduinoConstrain
  split_ifs <;> omega

theorem percentageInt_mono {r1 r2 : Nat} (h : r1 ≤ r2) :
    percentageInt r1 ≤ percentageInt r2 := by
  rw [percentageInt_formula, percentageInt_formula]
  have hx : ((r1 * 1200 / 1023 : ℕ) : ℤ) ≤ ((r2 * 1200 / 1023 : ℕ) : ℤ) := by
    exact_mod_cast Nat.div_le_div_right (Nat.mul_le_mul_right _ h)
  rcases le_or_lt 996 ((r1 * 1200 / 1023 : ℕ) : ℤ) with h1 | h1
  · exact arduinoConstrain_mono
      (tdiv_mono_of_nonneg (by omega) (by omega) (by omega))
  · have hz : Int.tdiv ((((r1 * 1200 / 1023 : ℕ) : ℤ) - 996) * 100) 264 ≤ 0 :=
      tdiv_nonpos_of_nonpos (by omega) (by omega)
    have h0 : arduinoConstrain
        (Int.tdiv ((((r1 * 1200 / 1023 : ℕ) : ℤ) - 996) * 100) 264) 0 100 = 0 := by
      unfold arduinoConstrain
      split_ifs <;> omega
    rw [h0]
    exact (arduinoConstrain_bounds _).1

/-- C1: over the full raw range [0, 1023], the refresh conversion yields a
voltage in [0, 12.0] and a stored percentage in [0, 100], and both are
monotonically non-decreasing in the raw sample (float arithmetic modelled
exactly over ℚ). -/
theorem convert_bounds_monotone (r1 r2 : Nat) (h12 : r1 ≤ r2)
    (h2 : r2 ≤ 1023) :
    (0 ≤ batteryVoltage r1 ∧ batteryVoltage r1 ≤ BATTERY_VOLTAGE_MAX ∧
     0 ≤ percentageQ r1 ∧ percentageQ r1 ≤ 100) ∧
    batteryVoltage r1 ≤ batteryVoltage r2 ∧
    percentageQ r1 ≤ percentageQ r2 := by
  have h1 : r1 ≤ 1023 := le_trans h12 h2
  have hc1 : ((r1 : ℚ)) ≤ 1023 := by exact_mod_cast h1
  have hc12 : ((r1 : ℚ)) ≤ (r2 : ℚ) := by exact_mod_cast h12
  refine ⟨⟨?_, ?_, ?_, ?_⟩, ?_, ?_⟩
  · rw [batteryVoltage_eq]; positivity
  · rw [batteryVoltage_eq]
    unfold BATTERY_VOLTAGE_MAX
    rw [div_le_iff₀ (by norm_num)]
    nlinarith
  · unfold percentageQ
    exact_mod_cast (arduinoConstrain_bounds _).1
  · unfold percentageQ
    exact_mod_cast (arduinoConstrain_bounds _).2
  · rw [batteryVoltage_eq, batteryVoltage_eq]
    gcongr
  · unfold percentageQ
    exact_mod_cast percentageInt_mono h12

/-- C1 witness: the bounds and monotonicity at the raw extremes 0 and 1023. -/
theorem convert_bounds_monotone_witness :
    (0 ≤ batteryVoltage 0 ∧ batteryVoltage 0 ≤ BATTERY_VOLTAGE_MAX ∧
     0 ≤ percentageQ 0 ∧ percentageQ 0 ≤ 100) ∧
    batteryVoltage 0 ≤ batteryVoltage 1023 ∧
    percentageQ 0 ≤ percentageQ 1023 :=
  convert_bounds_monotone 0 1023 (by decide) (by decide)

/-! Helper lemmas for the CSV field parser of sendHistoryData. -/

theorem findComma_of_not_mem {f : List Char} (h : ',' ∉ f) :
    findComma f = none := by
  induction f with
  | nil => rfl
  | cons c rest ih =>
    simp only [List.mem_cons, not_or] at h
    have hcne : ¬ (c = ',') := fun hc => h.1 hc.symm
    simp only [findComma, if_neg hcne, ih h.2, Option.map_none']

theorem findComma_append {f : List Char} (rest : List Char) (h : ',' ∉ f) :
    findComma (f ++ ',' :: rest) = some f.length := by
  induction f with
  | nil => simp [findComma]
  | cons c t ih =>
    simp only [List.mem_cons, not_or] at h
    have hcne : ¬ (c = ',') := fun hc => h.1 hc.symm
    simp only [List.cons_append, findComma, if_neg hcne, List.append_eq,
      ih h.2, Option.map_some', List.length_cons]

theorem substrA_eq {s : List Char} {l r : Nat} (hlr : l ≤ r)
    (hr : r ≤ s.length) : substrA s l r = (s.drop l).take (r - l) := by
  have hswap : ¬ (r < l) := not_lt.mpr hlr
  simp only [substrA, if_neg hswap, min_eq_left hr]
  by_cases hl : s.length ≤ l
  · rw [if_pos hl]
    have h2 : r - l = 0 := by omega
    rw [h2]
    simp
  · rw [if_neg hl, List.drop_take]

theorem fieldStep_mid (pre f rest : List Char) {data : List Char} {si : Nat}
    (hf : ',' ∉ f) (hsi : si = pre.length)
    (hdata : data = pre ++ (f ++ (',' :: rest))) :
    fieldStep data si = (f, f.length + si + 1) := by
  have hdrop : data.drop si = f ++ (',' :: rest) := by
    rw [hdata, hsi, List.drop_left]
  have hidx : indexOfFrom data si = some (f.length + si) := by
    rw [indexOfFrom, hdrop, findComma_append _ hf, Option.map_some']
  have hlen : data.length = pre.length + (f.length + (rest.length + 1)) := by
    rw [hdata]; simp [List.length_append]
  have hsub : substrA data si (f.length + si) = f := by
    rw [substrA_eq (by omega) (by omega)]
    have h1 : f.length + si - si = f.length := by omega
    rw [h1, hdrop, List.take_left]
  unfold fieldStep
  rw [hidx]
  show (substrA data si (f.length + si), f.length + si + 1) =
    (f, f.length + si + 1)
  rw [hsub]

theorem lastFieldStep_mid (pre f rest : List Char) {data : List Char}
    {si : Nat} (hf : ',' ∉ f) (hsi : si = pre.length)
    (hdata : data = pre ++ (f ++ (',' :: rest))) :
    lastFieldStep data si = (f, f.length + si + 1) := by
  have hdrop : data.drop si = f ++ (',' :: rest) := by
    rw [hdata, hsi, List.drop_left]
  have hidx : indexOfFrom data si = some (f.length + si) := by
    rw [indexOfFrom, hdrop, findComma_append _ hf, Option.map_some']
  have hlen : data.length = pre.length + (f.length + (rest.length + 1)) := by
    rw [hdata]; simp [List.length_append]
  have hsub : substrA data si (f.length + si) = f := by
    rw [substrA_eq (by omega) (by omega)]
    have h1 : f.length + si - si = f.length := by omega
    rw [h1, hdrop, List.take_left]
  unfold lastFieldStep
  rw [hidx, Option.getD_some]
  show (substrA data si (f.length + si), f.length + si + 1) =
    (f, f.length + si + 1)
  rw [hsub]

theorem lastFieldStep_end (pre c : List Char) {data : List Char} {si : Nat}
    (hc : ',' ∉ c) (hsi : si = pre.length) (hdata : data = pre ++ c) :
    lastFieldStep data si = (c, data.length + 1) := by
  have hdrop : data.drop si = c := by rw [hdata, hsi, List.drop_left]
  have hlen : data.length = pre.length + c.length := by
    rw [hdata]; simp [List.length_append]
  have hidx : indexOfFrom data si = none := by
    rw [indexOfFrom, hdrop, findComma_of_not_mem hc]
    rfl
  have hsub : substrA data si data.length = c := by
    rw [substrA_eq (by omega) (le_refl _), hdrop]
    have h1 : data.length - si = c.length := by omega
    rw [h1, List.take_length]
  unfold lastFieldStep
  rw [hidx, Option.getD_none]
  show (substrA data si data.length, data.length + 1) = (c, data.length + 1)
  rw [hsub]

theorem parseGroups_stop {data : List Char} {si : Nat}
    (h : data.length ≤ si) (fuel : Nat) : parseGroups data si fuel = [] := by
  cases fuel with
  | zero => rfl
  | succ f =>
    simp only [parseGroups]
    rw [if_neg (by omega)]

theorem joinComma_flat3_single (a b c : List Char) :
    joinComma (flat3 [(a, b, c)]) = a ++ (',' :: (b ++ (',' :: c))) := by
  simp [flat3, joinComma]

theorem joinComma_flat3_cons (a b c : List Char)
    (hd : List Char × List Char × List Char)
    (T : List (List Char × List Char × List Char)) :
    joinComma (flat3 ((a, b, c) :: hd :: T)) =
      a ++ (',' :: (b ++ (',' :: (c ++ (',' :: joinComma (flat3 (hd :: T))))))) := by
  obtain ⟨a2, b2, c2⟩ := hd
  simp [flat3, joinComma]

theorem parseGroups_spec :
    ∀ (T : List (List Char × List Char × List Char)) (data pre : List Char)
      (si fuel : Nat),
      data = pre ++ joinComma (flat3 T) → si = pre.length →
      (∀ f ∈ flat3 T, ',' ∉ f) → T ≠ [] → T.length ≤ fuel →
      parseGroups data si fuel = T := by
  intro T
  induction T with
  | nil => intro _ _ _ _ _ _ _ hne _; exact absurd rfl hne
  | cons hd T' ih =>
    intro data pre si fuel hdata hsi hf _ hfuel
    obtain ⟨a, b, c⟩ := hd
    have hfa : ',' ∉ a := hf a (by simp [flat3])
    have hfb : ',' ∉ b := hf b (by simp [flat3])
    have hfc : ',' ∉ c := hf c (by simp [flat3])
    cases fuel with
    | zero => simp at hfuel
    | succ fl =>
      rcases T' with _ | ⟨hd2, T''⟩
      · rw [joinComma_flat3_single] at hdata
        have hlen := congrArg List.length hdata
        simp only [List.length_append, List.length_cons] at hlen
        have hguard : si < data.length := by omega
        have hstep1 : fieldStep data si = (a, a.length + si + 1) :=
          fieldStep_mid pre a _ hfa hsi hdata
        have hstep2 : fieldStep data (a.length + si + 1) =
            (b, b.length + (a.length + si + 1) + 1) :=
          fieldStep_mid (pre ++ (a ++ [','])) b c hfb
            (by simp only [List.length_append, List.length_cons,
                  List.length_nil, hsi]
                omega)
            (by rw [hdata]; simp [List.append_assoc])
        have hstep3 : lastFieldStep data (b.length + (a.length + si + 1) + 1) =
            (c, data.length + 1) :=
          lastFieldStep_end (pre ++ (a ++ (',' :: (b ++ [','])))) c hfc
            (by simp only [List.length_append, List.length_cons,
                  List.length_nil, hsi]
                omega)
            (by rw [hdata]; simp [List.append_assoc])
        simp only [parseGroups, if_pos hguard, hstep1, hstep2, hstep3]
        rw [parseGroups_stop (by omega)]
      · rw [joinComma_flat3_cons] at hdata
        have hlen := congrArg List.length hdata
        simp only [List.length_append, List.length_cons] at hlen
        have hguard : si < data.length := by omega
        have hstep1 : fieldStep data si = (a, a.length + si + 1) :=
          fieldStep_mid pre a _ hfa hsi hdata
        have hstep2 : fieldStep data (a.length + si + 1) =
            (b, b.length + (a.length + si + 1) + 1) :=
          fieldStep_mid (pre ++ (a ++ [','])) b
            (c ++ (',' :: joinComma (flat3 (hd2 :: T'')))) hfb
            (by simp only [List.length_append, List.length_cons,
                  List.length_nil, hsi]
                omega)
            (by rw [hdata]; simp [List.append_assoc])
        have hstep3 : lastFieldStep data (b.length + (a.length + si + 1) + 1) =
            (c, c.length + (b.length + (a.length + si + 1) + 1) + 1) :=
          lastFieldStep_mid (pre ++ (a ++ (',' :: (b ++ [','])))) c
            (joinComma (flat3 (hd2 :: T''))) hfc
            (by simp only [List.length_append, List.length_cons,
                  List.length_nil, hsi]
                omega)
            (by rw [hdata]; simp [List.append_assoc])
        have hrec : parseGroups data
            (c.length + (b.length + (a.length + si + 1) + 1) + 1) fl =
            hd2 :: T'' := by
          apply ih data
            (pre ++ (a ++ (',' :: (b ++ (',' :: (c ++ [','])))))) _ fl
          · rw [hdata]; simp [List.append_assoc]
          · simp only [List.length_append, List.length_cons, List.length_nil,
              hsi]
            omega
          · intro f hmem
            apply hf
            show f ∈ a :: b :: c :: flat3 (hd2 :: T'')
            exact List.mem_cons_of_mem _ (List.mem_cons_of_mem _
              (List.mem_cons_of_mem _ hmem))
          · exact List.cons_ne_nil _ _
          · simp only [List.length_cons] at hfuel ⊢
            omega
        simp only [parseGroups, if_pos hguard, hstep1, hstep2, hstep3]
        rw [hrec]

theorem parseLine_spec (ts : List Char)
    (T : List (List Char × List Char × List Char)) (hts : ',' ∉ ts)
    (hf : ∀ f ∈ flat3 T, ',' ∉ f) (hne : T ≠ [])
    (hlen : T.length ≤ NUM_BATTERIES) :
    parseLine (ts ++ ',' :: joinComma (flat3 T)) = (ts, T) := by
  have hline : ts ++ ',' :: joinComma (flat3 T) =
      (ts ++ [',']) ++ joinComma (flat3 T) := by simp
  have hts2 : substrA (ts ++ ',' :: joinComma (flat3 T)) 0 ts.length = ts := by
    rw [substrA_eq (by omega) (by simp [List.length_append])]
    simp only [List.drop_zero, Nat.sub_zero]
    exact List.take_left ts _
  have hdrop : (ts ++ ',' :: joinComma (flat3 T)).drop (ts.length + 1) =
      joinComma (flat3 T) := by
    rw [hline, List.drop_left' (by simp)]
  unfold parseLine
  rw [findComma_append _ hts]
  show (substrA (ts ++ ',' :: joinComma (flat3 T)) 0 ts.length,
    parseGroups ((ts ++ ',' :: joinComma (flat3 T)).drop (ts.length + 1)) 0
      NUM_BATTERIES) = (ts, T)
  rw [hts2, hdrop,
    parseGroups_spec T (joinComma (flat3 T)) [] 0 NUM_BATTERIES (by simp) rfl
      hf hne hlen]

/-! Character classes of the serialized battery fields. -/

theorem safeChar_fracDigits (d : Nat) :
    ∀ (rem : ℚ), ∀ c ∈ fracDigits rem d, safeChar c := by
  induction d with
  | zero => intro rem c hc; simp [fracDigits] at hc
  | succ d ih =>
    intro rem c hc
    simp only [fracDigits] at hc
    rcases List.mem_append.mp hc with h | h
    · exact safeChar_natDigits _ c h
    · exact ih _ c h

theorem safeChar_fmtFixed (q : ℚ) (d : Nat) :
    ∀ c ∈ fmtFixed q d, safeChar c := by
  intro c hc
  simp only [fmtFixed] at hc
  rcases List.mem_append.mp hc with h | h
  · rcases List.mem_append.mp h with h1 | h1
    · by_cases hq : q < 0
      · rw [if_pos hq] at h1
        simp only [List.mem_singleton] at h1
        subst h1
        exact Or.inr (Or.inl rfl)
      · rw [if_neg hq] at h1
        simp at h1
    · exact safeChar_natDigits _ c h1
  · by_cases hd : 0 < d
    · rw [if_pos hd] at h
      rcases List.mem_cons.mp h with h1 | h1
      · subst h1
        exact Or.inr (Or.inr (Or.inr (Or.inr (Or.inr rfl))))
      · exact safeChar_fracDigits _ _ c h1
    · rw [if_neg hd] at h
      simp at h

theorem safeChar_batteryFields (bats : List Battery) :
    ∀ f ∈ flat3 (bats.map batteryTriple), ∀ c ∈ f, safeChar c := by
  induction bats with
  | nil => intro f hf; simp [flat3] at hf
  | cons b rest ih =>
    intro f hf
    have hshape : flat3 ((b :: rest).map batteryTriple) =
        natDigits b.rawValue :: fmtFixed b.voltage 3 :: fmtFixed b.percentage 1
          :: flat3 (rest.map batteryTriple) := rfl
    rw [hshape] at hf
    rcases List.mem_cons.mp hf with h | h
    · subst h; exact safeChar_natDigits _
    · rcases List.mem_cons.mp h with h1 | h1
      · subst h1; exact safeChar_fmtFixed _ _
      · rcases List.mem_cons.mp h1 with h2 | h2
        · subst h2; exact safeChar_fmtFixed _ _
        · exact ih f h2

theorem batteryFields_no_comma (bats : List Battery) :
    ∀ f ∈ flat3 (bats.map batteryTriple), ',' ∉ f := by
  intro f hf hmem
  exact (safeChar_excludes (safeChar_batteryFields bats f hf ',' hmem)).1 rfl

theorem csv_no_comma (bt : Nat → tmElements) (st : TimeState) :
    ',' ∉ getDateTimeForCSV bt st := by
  intro hmem
  exact (safeChar_excludes (safeChar_csv bt st ',' hmem)).1 rfl

theorem batteryCSV_join (bats : List Battery) :
    batteryCSV bats = joinComma (flat3 (bats.map batteryTriple)) := by
  induction bats with
  | nil => rfl
  | cons b rest ih =>
    rcases rest with _ | ⟨b2, rest2⟩
    · simp [batteryCSV, batteryTriple, flat3, joinComma]
    · have hshape : flat3 ((b :: b2 :: rest2).map batteryTriple) =
          natDigits b.rawValue :: fmtFixed b.voltage 3 ::
            fmtFixed b.percentage 1 :: flat3 ((b2 :: rest2).map batteryTriple)
          := rfl
      have hne : flat3 ((b2 :: rest2).map batteryTriple) =
          natDigits b2.rawValue :: fmtFixed b2.voltage 3 ::
            fmtFixed b2.percentage 1 :: flat3 (rest2.map batteryTriple) := rfl
      rw [hshape, hne]
      simp only [joinComma, batteryCSV]
      rw [ih, hne]
      simp [joinComma, List.append_assoc]

theorem dataLine_eq (bt : Nat → tmElements) (st : TimeState)
    (bats : List Battery) :
    dataLine bt st bats =
      getDateTimeForCSV bt st ++
        ',' :: joinComma (flat3 (bats.map batteryTriple)) := by
  unfold dataLine
  rw [batteryCSV_join]

/-- C2: serializing one log record (timestamp plus the per-channel triples)
as a CSV data line and replaying that line through the history parser yields
the timestamp and, per channel in order, exactly the decimal renderings of
raw, voltage to 3 decimals and percentage to 1 decimal — the original tuple
at the stated precision. -/
theorem logLine_roundtrip (bt : Nat → tmElements) (st : TimeState)
    (bats : List Battery) (h : bats.length = NUM_BATTERIES) :
    parseLine (dataLine bt st bats) =
      (getDateTimeForCSV bt st, bats.map batteryTriple) := by
  have hne : bats.map batteryTriple ≠ [] := by
    intro h0
    have := congrArg List.length h0
    simp [h] at this
    simp [NUM_BATTERIES] at this
  rw [dataLine_eq]
  exact parseLine_spec _ _ (csv_no_comma bt st) (batteryFields_no_comma bats)
    hne (by simp [h])

/-- C2 witness: the round trip at a concrete record (the freshly initialised
registry, unsynced timestamp sentinel). -/
theorem logLine_roundtrip_witness :
    parseLine (dataLine (fun _ => ⟨54, 3, 15, 13, 5, 9⟩) ⟨false, 0⟩
        initBatteries) =
      (getDateTimeForCSV (fun _ => ⟨54, 3, 15, 13, 5, 9⟩) ⟨false, 0⟩,
        initBatteries.map batteryTriple) :=
  logLine_roundtrip (fun _ => ⟨54, 3, 15, 13, 5, 9⟩) ⟨false, 0⟩ initBatteries
    (by simp [initBatteries, NUM_BATTERIES])

/-! Helper lemmas for the malformed-line analysis. -/

theorem parseGroups_length (data : List Char) :
    ∀ (fuel si : Nat), (parseGroups data si fuel).length ≤ fuel := by
  intro fuel
  induction fuel with
  | zero => intro si; simp [parseGroups]
  | succ f ih =>
    intro si
    simp only [parseGroups]
    by_cases hg : si < data.length
    · rw [if_pos hg]
      simp only [List.length_cons]
      exact Nat.succ_le_succ (ih _)
    · rw [if_neg hg]
      simp

theorem groupTriples_short {l : List (List Char)} (h : l.length < 3) :
    groupTriples l = [] := by
  rcases l with _ | ⟨x, _ | ⟨y, _ | ⟨z, t⟩⟩⟩
  · rfl
  · rfl
  · rfl
  · simp at h; omega

/-- C4 counterexample: the data line "T,1,2" has 3 comma-separated fields,
fewer than 1 + 3N = 31, yet the parser neither skips it nor truncates it to
complete triples of its own fields: it emits two triples by wrapping around
and re-reading fields from the start of the data. -/
theorem malformed_line_not_graceful :
    1 + (dataFields "T,1,2".toList).length < 1 + 3 * NUM_BATTERIES ∧
    (parseLine "T,1,2".toList).2 =
      [(['1'], ['2'], ['1']), (['2'], ['1'], ['2'])] ∧
    ¬ parsedGracefully "T,1,2".toList := by
  refine ⟨by decide, by decide, ?_⟩
  rintro ⟨k, hk⟩
  have hfields : dataFields "T,1,2".toList = [['1'], ['2']] := by decide
  have hlen2 : ((dataFields "T,1,2".toList).take k).length < 3 := by
    rw [hfields]
    simp only [List.length_take, List.length_cons, List.length_nil]
    omega
  rw [groupTriples_short hlen2] at hk
  have h2 : (parseLine "T,1,2".toList).2 =
      [(['1'], ['2'], ['1']), (['2'], ['1'], ['2'])] := by decide
  rw [h2] at hk
  exact absurd hk (by decide)

/-- C4 (amended): the parser is memory-safe and bounded — every line yields
at most N triples and all substring reads clamp to the line — and replay of
all other lines is unaffected by a malformed line; a short line whose data
field count is a multiple of three is truncated gracefully to exactly its
complete triples (the same statement covers well-formed lines), but other
malformed lines are neither skipped nor truncated: parsing wraps to the
start of the data and emits garbage triples until the N bound or the cursor
passes the end. -/
theorem malformed_line_handling :
    (∀ ts T, ',' ∉ ts → (∀ f ∈ flat3 T, ',' ∉ f) → T ≠ [] →
      T.length ≤ NUM_BATTERIES →
      parseLine (ts ++ ',' :: joinComma (flat3 T)) = (ts, T)) ∧
    (∀ line : List Char, (parseLine line).2.length ≤ NUM_BATTERIES) ∧
    (∀ header bad : List Char, ∀ pre post : List (List Char),
      replayHistory (header :: (pre ++ bad :: post)) =
        replayHistory (header :: pre) ++ (processLine bad).toList ++
          replayHistory (header :: post)) := by
  refine ⟨fun ts T hts hf hne hlen => parseLine_spec ts T hts hf hne hlen,
    ?_, ?_⟩
  · intro line
    unfold parseLine
    cases hfc : findComma line
    · exact parseGroups_length _ _ _
    · exact parseGroups_length _ _ _
  · intro header bad pre post
    cases hpb : processLine bad <;>
      simp [replayHistory, List.filterMap_append, List.filterMap_cons, hpb]

/-- C4 witness: graceful truncation of a 1-triple line, the N bound on a
wrapped line, and replay independence at concrete lines. -/
theorem malformed_line_handling_witness :
    parseLine ("T".toList ++ ',' :: joinComma (flat3 [(['1'], ['2'], ['3'])]))
      = ("T".toList, [(['1'], ['2'], ['3'])]) :=
  malformed_line_handling.1 "T".toList [(['1'], ['2'], ['3'])] (by decide)
    (by decide) (by decide) (by decide)

/-! Helper lemmas for the log-file shape. -/

theorem splitComma_of_not_mem {f : List Char} (h : ',' ∉ f) :
    splitComma f = [f] := by
  induction f with
  | nil => rfl
  | cons c rest ih =>
    simp only [List.mem_cons, not_or] at h
    have hcne : ¬ (c = ',') := fun hc => h.1 hc.symm
    simp only [splitComma, if_neg hcne, ih h.2]

theorem splitComma_append {f : List Char} (rest : List Char) (h : ',' ∉ f) :
    splitComma (f ++ ',' :: rest) = f :: splitComma rest := by
  induction f with
  | nil => simp [splitComma]
  | cons c t ih =>
    simp only [List.mem_cons, not_or] at h
    have hcne : ¬ (c = ',') := fun hc => h.1 hc.symm
    simp only [List.cons_append, splitComma, if_neg hcne, List.append_eq,
      ih h.2]

theorem splitComma_joinComma (fs : List (List Char)) (hne : fs ≠ [])
    (hf : ∀ f ∈ fs, ',' ∉ f) : splitComma (joinComma fs) = fs := by
  induction fs with
  | nil => exact absurd rfl hne
  | cons f fs' ih =>
    rcases fs' with _ | ⟨g, t⟩
    · have hj : joinComma [f] = f := rfl
      rw [hj, splitComma_of_not_mem (hf f (by simp))]
    · have hj : joinComma (f :: g :: t) = f ++ ',' :: joinComma (g :: t) := rfl
      rw [hj, splitComma_append _ (hf f (by simp)),
        ih (by simp) (fun x hx => hf x (List.mem_cons_of_mem _ hx))]

theorem flat3_length (T : List (List Char × List Char × List Char)) :
    (flat3 T).length = 3 * T.length := by
  induction T with
  | nil => rfl
  | cons hd t ih =>
    obtain ⟨a, b, c⟩ := hd
    simp only [flat3, List.length_cons, ih]
    omega

theorem flat3_ne_nil {bats : List Battery} (h : bats ≠ []) :
    flat3 (bats.map batteryTriple) ≠ [] := by
  intro h0
  have := congrArg List.length h0
  rw [flat3_length] at this
  simp at this
  exact h this

theorem dataLine_fields (bt : Nat → tmElements) (st : TimeState)
    (bats : List Battery) (h : bats ≠ []) :
    splitComma (dataLine bt st bats) =
      getDateTimeForCSV bt st :: flat3 (bats.map batteryTriple) := by
  rw [dataLine_eq, splitComma_append _ (csv_no_comma bt st),
    splitComma_joinComma _ (flat3_ne_nil h) (batteryFields_no_comma bats)]

theorem joinComma_chars (fs : List (List Char)) :
    ∀ c ∈ joinComma fs, (∃ f ∈ fs, c ∈ f) ∨ c = ',' := by
  induction fs with
  | nil => simp [joinComma]
  | cons f fs' ih =>
    rcases fs' with _ | ⟨g, t⟩
    · intro c hc
      have hj : joinComma [f] = f := rfl
      rw [hj] at hc
      exact Or.inl ⟨f, by simp, hc⟩
    · intro c hc
      have hj : joinComma (f :: g :: t) = f ++ ',' :: joinComma (g :: t) := rfl
      rw [hj] at hc
      rcases List.mem_append.mp hc with h | h
      · exact Or.inl ⟨f, by simp, h⟩
      · rcases List.mem_cons.mp h with h1 | h1
        · exact Or.inr h1
        · rcases ih c h1 with ⟨f2, hf2, hcf2⟩ | h2
          · exact Or.inl ⟨f2, List.mem_cons_of_mem _ hf2, hcf2⟩
          · exact Or.inr h2

theorem dataLine_chars (bt : Nat → tmElements) (st : TimeState)
    (bats : List Battery) :
    ∀ c ∈ dataLine bt st bats, safeChar c ∨ c = ',' := by
  intro c hc
  rw [dataLine_eq] at hc
  rcases List.mem_append.mp hc with h | h
  · exact Or.inl (safeChar_csv bt st c h)
  · rcases List.mem_cons.mp h with h1 | h1
    · exact Or.inr h1
    · rcases joinComma_chars _ c h1 with ⟨f, hf, hcf⟩ | h2
      · exact Or.inl (safeChar_batteryFields bats f hf c hcf)
      · exact Or.inr h2

theorem dataLine_no_newline (bt : Nat → tmElements) (st : TimeState)
    (bats : List Battery) :
    '\n' ∉ dataLine bt st bats ∧ '\r' ∉ dataLine bt st bats := by
  refine ⟨fun hm => ?_, fun hm => ?_⟩
  · rcases dataLine_chars bt st bats _ hm with h | h
    · exact (safeChar_excludes h).2.1 rfl
    · exact absurd h (by decide)
  · rcases dataLine_chars bt st bats _ hm with h | h
    · exact (safeChar_excludes h).2.2 rfl
    · exact absurd h (by decide)

theorem logFile_eq (bt : Nat → tmElements)
    (recs : List (TimeState × List Battery)) :
    ∀ (init : List (List Char)),
      recs.foldl (fun f r => appendLog f (dataLine bt r.1 r.2)) init =
        init ++ recs.map (fun r => dataLine bt r.1 r.2) := by
  induction recs with
  | nil => intro init; simp
  | cons r t ih =>
    intro init
    rw [List.foldl_cons, ih]
    simp [appendLog, List.append_assoc]

set_option maxRecDepth 20000 in
/-- C5: any log file built from a fresh file by appends has the fixed
column-naming header as its first line; the header and every appended data
line (CSV_ISO timestamp, then raw, voltage to 3 decimals and percentage to 1
decimal per channel, in order) split on commas into exactly 1 + 3N = 31
fields; and no line contains a newline, so each println-terminated append
contributes exactly one line. -/
theorem logFile_invariant (bt : Nat → tmElements)
    (recs : List (TimeState × List Battery))
    (h : ∀ r ∈ recs, r.2.length = NUM_BATTERIES) :
    headerLine = ("DateTime_UTC,Battery1_Raw,Battery1_Voltage," ++
      "Battery1_Percentage,Battery2_Raw,Battery2_Voltage," ++
      "Battery2_Percentage,Battery3_Raw,Battery3_Voltage," ++
      "Battery3_Percentage,Battery4_Raw,Battery4_Voltage," ++
      "Battery4_Percentage,Battery5_Raw,Battery5_Voltage," ++
      "Battery5_Percentage,Battery6_Raw,Battery6_Voltage," ++
      "Battery6_Percentage,Battery7_Raw,Battery7_Voltage," ++
      "Battery7_Percentage,Battery8_Raw,Battery8_Voltage," ++
      "Battery8_Percentage,Battery9_Raw,Battery9_Voltage," ++
      "Battery9_Percentage,Battery10_Raw,Battery10_Voltage," ++
      "Battery10_Percentage").toList ∧
    (recs.foldl (fun f r => appendLog f (dataLine bt r.1 r.2))
        initLog).head? = some headerLine ∧
    ∀ l ∈ recs.foldl (fun f r => appendLog f (dataLine bt r.1 r.2)) initLog,
      (splitComma l).length = 1 + 3 * NUM_BATTERIES ∧ '\n' ∉ l ∧ '\r' ∉ l := by
  refine ⟨by decide, ?_, ?_⟩
  · rw [logFile_eq]
    rfl
  · intro l hl
    rw [logFile_eq] at hl
    rcases List.mem_append.mp hl with h1 | h1
    · simp only [initLog, List.mem_singleton] at h1
      subst h1
      exact ⟨by decide, by decide, by decide⟩
    · rcases List.mem_map.mp h1 with ⟨r, hr, rfl⟩
      have hlen := h r hr
      have hne : r.2 ≠ [] := by
        intro h0
        rw [h0] at hlen
        simp [NUM_BATTERIES] at hlen
      refine ⟨?_, (dataLine_no_newline bt r.1 r.2).1,
        (dataLine_no_newline bt r.1 r.2).2⟩
      rw [dataLine_fields bt r.1 r.2 hne]
      simp only [List.length_cons, flat3_length, List.length_map, hlen]
      omega

/-- C5 witness: the invariant for a one-record file at a concrete record. -/
theorem logFile_invariant_witness :
    ([((⟨false, 0⟩ : TimeState), initBatteries)].foldl
        (fun f r =>
          appendLog f (dataLine (fun _ => ⟨54, 3, 15, 13, 5, 9⟩) r.1 r.2))
        initLog).head? = some headerLine :=
  (logFile_invariant (fun _ => ⟨54, 3, 15, 13, 5, 9⟩)
    [(⟨false, 0⟩, initBatteries)]
    (by intro r hr
        simp only [List.mem_singleton] at hr
        subst hr
        simp [initBatteries, NUM_BATTERIES])).2.1
